import Mathlib

/-!
Verification development for the instagram data pipeline repository.

The embedding below mirrors, in Lean, the state-manipulating parts of
  src/instagram_pipeline/scheduler/job_scheduler.py      (JobScheduler)
  src/instagram_pipeline/scraper/instagram_scraper.py    (InstagramScraper)
  src/instagram_pipeline/scraper/proxy_manager.py        (ProxyManager)
  src/instagram_pipeline/analysis/interest_analyzer.py   (InterestAnalyzer)
over an explicit relational-store state (the tables created by
src/instagram_pipeline/database/setup.py).  SQL rows become list entries,
`ON CONFLICT DO NOTHING` becomes a guarded append, `ON CONFLICT DO UPDATE`
a guarded map, and the psycopg2 commit discipline is modelled, where a
claim needs it, by a pair of database states (durable vs working).
Attribute columns no claim touches (bio, profile picture, timestamps of
edge rows, the unused `last_cursor`) are elided from the row types.
-/

namespace InstaPipe

/-- A row of the `users` table: only the columns the claims touch
(primary key `user_id` and the `username` used for lookups). -/
structure UserRow where
  userId : String
  username : String
deriving Repr, DecidableEq

/-- A row of the `scrape_jobs` table (schema in database/setup.py:
`status` defaults to 'pending', `processed_items` defaults to 0,
`started_at`, `completed_at`, `total_items`, `error_message` default NULL). -/
structure JobRow where
  jobId : Nat
  target : String
  jobType : String
  status : String
  startedAt : Option Int
  completedAt : Option Int
  totalItems : Option Nat
  processedItems : Nat
  errorMessage : Option String
deriving Repr, DecidableEq

/-- A row of the `interests` table, unique per (user_id, category_id);
`confidence_score` (a Python float) is modelled as a rational. -/
structure InterestRow where
  userId : String
  categoryId : Nat
  confidence : Rat
deriving Repr, DecidableEq

/-- The relational store: the tables of database/setup.py.  `followers`,
`following` and `mutuals` rows are (user_id, other_id) pairs; their UNIQUE
constraints are maintained by the guarded insert operations below.
`nextJobId` models the `job_id` SERIAL sequence. -/
structure DB where
  users : List UserRow
  followers : List (String × String)
  following : List (String × String)
  mutuals : List (String × String)
  interests : List InterestRow
  jobs : List JobRow
  nextJobId : Nat
deriving Repr, DecidableEq

def DB.empty : DB := ⟨[], [], [], [], [], [], 1⟩

/-- `INSERT INTO users ... ON CONFLICT (user_id) DO NOTHING`. -/
def insertUserIfAbsent (db : DB) (uid uname : String) : DB :=
  if db.users.any (fun u => u.userId = uid) then db
  else { db with users := db.users ++ [⟨uid, uname⟩] }

/-- An `INSERT ... ON CONFLICT DO NOTHING` into a two-column UNIQUE pair
table: append the row unless it is already present. -/
def insPair (l : List (String × String)) (p : String × String) :
    List (String × String) :=
  if p ∈ l then l else l ++ [p]

/-- `INSERT INTO followers (user_id, follower_id) ... ON CONFLICT DO NOTHING`. -/
def insertFollowerEdge (db : DB) (uid fid : String) : DB :=
  { db with followers := insPair db.followers (uid, fid) }

/-- `INSERT INTO following (user_id, following_id) ... ON CONFLICT DO NOTHING`. -/
def insertFollowingEdge (db : DB) (uid fid : String) : DB :=
  { db with following := insPair db.following (uid, fid) }

/-- `INSERT INTO mutuals (user_id, mutual_id) ... ON CONFLICT DO NOTHING`
for a single selected pair. -/
def insertMutualEdge (db : DB) (uid mid : String) : DB :=
  { db with mutuals := insPair db.mutuals (uid, mid) }

/-- `SELECT user_id FROM users WHERE username = %s` with `fetchone()`. -/
def lookupUserId (db : DB) (uname : String) : Option String :=
  (db.users.find? (fun u => u.username = uname)).map (·.userId)

/-- `INSERT INTO scrape_jobs ... RETURNING job_id`: appends a fresh row,
returning the new id.  Unsupplied columns take their schema defaults. -/
def insertJob (db : DB) (target jtype status : String) (startedAt : Option Int) :
    Nat × DB :=
  (db.nextJobId,
   { db with
      jobs := db.jobs ++ [⟨db.nextJobId, target, jtype, status, startedAt,
                           none, none, 0, none⟩],
      nextJobId := db.nextJobId + 1 })

/-- `UPDATE scrape_jobs SET ... WHERE job_id = %s` at the row-list level. -/
def updateJobs (l : List JobRow) (jid : Nat) (f : JobRow → JobRow) : List JobRow :=
  l.map (fun j => if j.jobId = jid then f j else j)

/-- `UPDATE scrape_jobs SET ... WHERE job_id = %s` on the store. -/
def updateJob (db : DB) (jid : Nat) (f : JobRow → JobRow) : DB :=
  { db with jobs := updateJobs db.jobs jid f }

/-! ### JobScheduler: daily counter (job_scheduler.py, lines 42-47) -/

/-- A calendar date, as the scheduler observes it through `datetime.now()`. -/
structure Date where
  year : Nat
  month : Nat
  day : Nat
deriving Repr, DecidableEq

/-- The scheduler's in-memory state: `daily_quota` (200 in `__init__`),
`current_day_processed`, and `last_day` — note the source stores only
`datetime.now().day`, the day of month. -/
structure SchedState where
  dailyQuota : Nat
  currentDayProcessed : Nat
  lastDay : Nat
deriving Repr, DecidableEq

/-- `JobScheduler._reset_daily_counter`: compares `datetime.now().day`
(day of month) with the stored `last_day` and resets on mismatch. -/
def reset_daily_counter (s : SchedState) (today : Date) : SchedState :=
  if today.day ≠ s.lastDay then
    { s with currentDayProcessed := 0, lastDay := today.day }
  else s

/-! ### JobScheduler: enrollment (job_scheduler.py, lines 49-77) -/

/-- Seven days in seconds; `datetime.now() - timedelta(days=7)` is modelled
with integer timestamps. -/
def sevenDays : Int := 7 * 24 * 60 * 60

/-- The dedup query of `schedule_user_scraping`: a job matches when its
target and type match and its `started_at` is non-NULL and within the last
seven days (SQL `started_at > %s` is unknown/false on NULL). -/
def isRecentJob (uname : String) (now : Int) (j : JobRow) : Bool :=
  decide (j.target = uname) &&
  decide (j.jobType = "profile" ∨ j.jobType = "followers" ∨ j.jobType = "following") &&
  (match j.startedAt with
   | some t => decide (now - sevenDays < t)
   | none => false)

/-- Whether `schedule_user_scraping`'s dedup query returns any row. -/
def hasRecentJob (db : DB) (uname : String) (now : Int) : Bool :=
  db.jobs.any (isRecentJob uname now)

/-- `JobScheduler.schedule_user_scraping`: unless a recent job exists,
inserts one 'pending' job per type ('profile', 'followers', 'following');
the inserts supply no `started_at`, so it is NULL. -/
def schedule_user_scraping (db : DB) (uname : String) (now : Int) : DB :=
  if hasRecentJob db uname now then db
  else
    let db1 := (insertJob db uname "profile" "pending" none).2
    let db2 := (insertJob db1 uname "followers" "pending" none).2
    (insertJob db2 uname "following" "pending" none).2

/-! ### ProxyManager (proxy_manager.py) -/

/-- A proxy record (the http/https URL pair used in `_load_proxies`). -/
structure Proxy where
  http : String
  https : String
deriving Repr, DecidableEq

/-- The three placeholder proxies `_load_proxies` installs. -/
def baseProxies : List Proxy :=
  [⟨"http://proxy1:port", "https://proxy1:port"⟩,
   ⟨"http://proxy2:port", "https://proxy2:port"⟩,
   ⟨"http://proxy3:port", "https://proxy3:port"⟩]

/-- ProxyManager state: the pool list and the rotation index. -/
structure ProxyManager where
  proxies : List Proxy
  currentIndex : Nat
deriving Repr, DecidableEq

/-- `ProxyManager.get_proxy`.  The outer `Option` is the Python run-time:
`none` is an uncaught `IndexError` from `self.proxies[self.current_index]`;
`some (res, m)` is a normal return of `res` with successor state `m`. -/
def get_proxy (m : ProxyManager) : Option (Option Proxy × ProxyManager) :=
  if m.proxies.isEmpty then some (none, m)
  else
    if h : m.currentIndex < m.proxies.length then
      some (some (m.proxies.get ⟨m.currentIndex, h⟩),
            { m with currentIndex := (m.currentIndex + 1) % m.proxies.length })
    else none

/-- `ProxyManager.mark_proxy_failed`: remove the first occurrence if
present; if fewer than 3 proxies remain, `_load_proxies` reinstalls the
base pool (shuffled — the caller supplies the shuffled order `reload`). -/
def mark_proxy_failed (m : ProxyManager) (p : Proxy) (reload : List Proxy) :
    ProxyManager :=
  if p ∈ m.proxies then
    let rest := m.proxies.erase p
    if rest.length < 3 then { m with proxies := reload }
    else { m with proxies := rest }
  else m

/-- One external call to the ProxyManager: a `get_proxy` call, or a
`mark_proxy_failed` call carrying the proxy reported and the shuffled
order `_load_proxies` would install if a reload triggers. -/
inductive PEvent where
  | get : PEvent
  | fail : Proxy → List Proxy → PEvent
deriving Repr, DecidableEq

/-- Run a sequence of interleaved calls; `none` means some `get_proxy`
raised `IndexError`. -/
def runProxy : List PEvent → ProxyManager → Option ProxyManager
  | [], m => some m
  | PEvent.get :: evs, m =>
    match get_proxy m with
    | none => none
    | some (_, m1) => runProxy evs m1
  | PEvent.fail p reload :: evs, m => runProxy evs (mark_proxy_failed m p reload)

/-! ### InstagramScraper.calculate_mutual_followers (instagram_scraper.py, 413-444) -/

/-- The rows produced by the SQL join
`followers f1 JOIN following f2 ON f1.user_id = f2.user_id AND
 f1.follower_id = f2.following_id WHERE f1.user_id = uid`. -/
def mutualPairs (db : DB) (uid : String) : List (String × String) :=
  db.followers.filter (fun p => decide (p.1 = uid ∧ p ∈ db.following))

/-- The outcome of one `calculate_mutual_followers` call: the store, the
value the Python function returns to its caller (it has no `return`
statement on the success path, so this is `None`), and the
`cursor.rowcount` it logs (absent when the early not-found return fires). -/
structure MutualRun where
  db : DB
  ret : Option Nat
  logged : Option Nat
deriving Repr, DecidableEq

/-- `InstagramScraper.calculate_mutual_followers`: looks up the user id by
username (early return when absent), inserts the join rows with
`ON CONFLICT (user_id, mutual_id) DO NOTHING`, logs `cursor.rowcount`
(the number of rows actually inserted) and falls off the end. -/
def calculate_mutual_followers (db : DB) (uname : String) : MutualRun :=
  match lookupUserId db uname with
  | none => ⟨db, none, none⟩
  | some uid =>
    let db1 := (mutualPairs db uid).foldl (fun d p => insertMutualEdge d p.1 p.2) db
    ⟨db1, none, some (db1.mutuals.length - db.mutuals.length)⟩

/-! ### InstagramScraper.get_followers / get_following with the commit
discipline (instagram_scraper.py, 227-411).

`psycopg2` buffers `cursor.execute` effects until `conn.commit()`.  The
pair below carries the durable (committed) store next to the working one;
`commitDB` publishes the working state.  A crash at any point leaves the
durable component. -/

structure DBP where
  dur : DB
  wrk : DB
deriving Repr, DecidableEq

def commitDB (p : DBP) : DBP := ⟨p.wrk, p.wrk⟩

/-- Python truthiness of the loop's break test
`if max_count and follower_count >= max_count` — `None` and `0` are falsy. -/
def stopNow (maxCount : Option Nat) (cnt : Nat) : Bool :=
  match maxCount with
  | some n => if n = 0 then false else decide (n ≤ cnt)
  | none => false

/-- The checkpoint write `SET processed_items = m` as a row function. -/
def setProcessed (m : Nat) (j : JobRow) : JobRow := { j with processedItems := m }

/-- The terminal `UPDATE ... SET status = 'completed', completed_at,
total_items, processed_items` of a followers/following fetch. -/
def completeJob (now : Int) (cnt : Nat) (j : JobRow) : JobRow :=
  { j with status := "completed", completedAt := some now,
           totalItems := some cnt, processedItems := cnt }

/-- The two inserts the `get_followers` loop performs per listed item:
the account row (`ON CONFLICT DO NOTHING`) then the follower edge
(`ON CONFLICT DO NOTHING`). -/
def followerInsert (uid : String) (item : UserRow) (w : DB) : DB :=
  insertFollowerEdge (insertUserIfAbsent w item.userId item.username)
    uid item.userId

/-- The body of the per-item loop of `get_followers` for the item whose
running counter value (after `follower_count += 1`) is `cnt`: perform the
two inserts, and on every 10th item persist `processed_items` and commit. -/
def followerItemStep (uid : String) (jid : Nat) (item : UserRow) (cnt : Nat)
    (p : DBP) : DBP :=
  if cnt % 10 = 0 then
    commitDB ⟨p.dur, updateJob (followerInsert uid item p.wrk) jid
      (setProcessed cnt)⟩
  else ⟨p.dur, followerInsert uid item p.wrk⟩

/-- The per-item loop of `get_followers`, fuelled so that a run
interrupted after a given number of iterations is expressible; returns the
final `follower_count` and store pair. -/
def followersLoop (uid : String) (jid : Nat) (maxCount : Option Nat) :
    Nat → List UserRow → Nat → DBP → Nat × DBP
  | 0, _, cnt, p => (cnt, p)
  | _ + 1, [], cnt, p => (cnt, p)
  | fuel + 1, item :: rest, cnt, p =>
    let c := cnt + 1
    let p1 := followerItemStep uid jid item c p
    if stopNow maxCount c then (c, p1)
    else followersLoop uid jid maxCount fuel rest c p1

/-- The two per-item inserts of `get_following` (the `following` table). -/
def followingInsert (uid : String) (item : UserRow) (w : DB) : DB :=
  insertFollowingEdge (insertUserIfAbsent w item.userId item.username)
    uid item.userId

/-- Same loop body for `get_following` (writes to the `following` table). -/
def followingItemStep (uid : String) (jid : Nat) (item : UserRow) (cnt : Nat)
    (p : DBP) : DBP :=
  if cnt % 10 = 0 then
    commitDB ⟨p.dur, updateJob (followingInsert uid item p.wrk) jid
      (setProcessed cnt)⟩
  else ⟨p.dur, followingInsert uid item p.wrk⟩

def followingLoop (uid : String) (jid : Nat) (maxCount : Option Nat) :
    Nat → List UserRow → Nat → DBP → Nat × DBP
  | 0, _, cnt, p => (cnt, p)
  | _ + 1, [], cnt, p => (cnt, p)
  | fuel + 1, item :: rest, cnt, p =>
    let c := cnt + 1
    let p1 := followingItemStep uid jid item c p
    if stopNow maxCount c then (c, p1)
    else followingLoop uid jid maxCount fuel rest c p1

/-- Result of a followers/following fetch: final store pair, the error
re-raised (if any), and the id of the job row the fetch created. -/
structure FollowRun where
  p : DBP
  err : Option String
  jobId : Nat
deriving Repr, DecidableEq

/-- `InstagramScraper.get_followers`.  `profiles` stands for the external
`instaloader` listing: for a username it yields the profile's user id and
the finite follower sequence, or `none` when `Profile.from_username`
raises.  The function first INSERTs a fresh `scrape_jobs` row with status
'in_progress' and a start timestamp (committed), then iterates, then marks
that same fresh row 'completed' (or 'failed' on an exception, re-raising). -/
def get_followers (db : DB) (uname : String) (maxCount : Option Nat)
    (profiles : String → Option (String × List UserRow)) (now : Int) : FollowRun :=
  let jd := insertJob db uname "followers" "in_progress" (some now)
  let p0 := commitDB ⟨db, jd.2⟩
  match profiles uname with
  | none =>
    let w := updateJob p0.wrk jd.1
      (fun j => { j with status := "failed", errorMessage := some "profile fetch error" })
    ⟨commitDB ⟨p0.dur, w⟩, some "profile fetch error", jd.1⟩
  | some (uid, items) =>
    let r := followersLoop uid jd.1 maxCount items.length items 0 p0
    let w := updateJob r.2.wrk jd.1 (completeJob now r.1)
    ⟨commitDB ⟨r.2.dur, w⟩, none, jd.1⟩

/-- `InstagramScraper.get_following`, mirror image of `get_followers`. -/
def get_following (db : DB) (uname : String) (maxCount : Option Nat)
    (profiles : String → Option (String × List UserRow)) (now : Int) : FollowRun :=
  let jd := insertJob db uname "following" "in_progress" (some now)
  let p0 := commitDB ⟨db, jd.2⟩
  match profiles uname with
  | none =>
    let w := updateJob p0.wrk jd.1
      (fun j => { j with status := "failed", errorMessage := some "profile fetch error" })
    ⟨commitDB ⟨p0.dur, w⟩, some "profile fetch error", jd.1⟩
  | some (uid, items) =>
    let r := followingLoop uid jd.1 maxCount items.length items 0 p0
    let w := updateJob r.2.wrk jd.1 (completeJob now r.1)
    ⟨commitDB ⟨r.2.dur, w⟩, none, jd.1⟩

/-- `INSERT INTO users ... ON CONFLICT (user_id) DO UPDATE`, the upsert
`get_user_profile` performs (restricted to the modelled columns). -/
def upsertUser (db : DB) (uid uname : String) : DB :=
  if db.users.any (fun u => u.userId = uid) then
    { db with users :=
        db.users.map (fun u =>
          if u.userId = uid then { u with username := uname } else u) }
  else { db with users := db.users ++ [⟨uid, uname⟩] }

/-- `InstagramScraper.get_user_profile`: fetch the profile snapshot
(`none` = the fetch raised, re-raised to the caller), upsert, commit. -/
def get_user_profile (db : DB) (uname : String)
    (profiles : String → Option (String × List UserRow)) : DB × Option String :=
  match profiles uname with
  | none => (db, some "profile fetch error")
  | some (uid, _) => (upsertUser db uid uname, none)

/-! ### JobScheduler.process_pending_jobs (job_scheduler.py, 79-154) -/

/-- The batch query: `SELECT ... WHERE status = 'pending' ORDER BY job_id
LIMIT min(remaining_quota, 10)` (jobs are stored in job_id order). -/
def selectBatch (s : SchedState) (db : DB) : List JobRow :=
  (db.jobs.filter (fun j => j.status = "pending")).take
    (min (s.dailyQuota - s.currentDayProcessed) 10)

/-- The dispatch on `job_type`: the scraper call the scheduler makes for a
job of the given type.  `crawl` abstracts the three InstagramScraper
operations; it returns the store after the call (the scraper commits its
changes even when it raises) and the raised error, if any.  A job type
matching none of the three branches performs no call. -/
def dispatchCrawl (crawl : String → String → DB → DB × Option String)
    (jtype target : String) (db : DB) : DB × Option String :=
  if jtype = "profile" then crawl "profile" target db
  else if jtype = "followers" then crawl "followers" target db
  else if jtype = "following" then crawl "following" target db
  else (db, none)

/-- The body of the per-job loop of `process_pending_jobs`: invoke the
crawler; on an exception mark the *dispatched* job 'failed' with the
message and leave the counter alone; on success run the mutual-follower
trigger (when both a 'followers' and a 'following' job for the target are
'completed') and increment the daily counter. -/
def processOneJob (crawl : String → String → DB → DB × Option String)
    (j : JobRow) (sd : SchedState × DB) : SchedState × DB :=
  let r := dispatchCrawl crawl j.jobType j.target sd.2
  match r.2 with
  | some msg =>
    (sd.1, updateJob r.1 j.jobId
      (fun jr => { jr with status := "failed", errorMessage := some msg }))
  | none =>
    let db2 :=
      if j.jobType = "followers" ∨ j.jobType = "following" then
        let cc := (r.1.jobs.filter (fun jr =>
          decide (jr.target = j.target) &&
          decide (jr.jobType = "followers" ∨ jr.jobType = "following") &&
          decide (jr.status = "completed"))).length
        if cc = 2 then (calculate_mutual_followers r.1 j.target).db else r.1
      else r.1
    ({ sd.1 with currentDayProcessed := sd.1.currentDayProcessed + 1 }, db2)

/-- The per-job loop over a dispatched batch. -/
def runBatch (crawl : String → String → DB → DB × Option String)
    (batch : List JobRow) (sd : SchedState × DB) : SchedState × DB :=
  batch.foldl (fun acc j => processOneJob crawl j acc) sd

/-- `JobScheduler.process_pending_jobs`: reset the daily counter on a
day-of-month change, return untouched at quota, select the batch from the
pending jobs, and process it sequentially. -/
def process_pending_jobs (crawl : String → String → DB → DB × Option String)
    (today : Date) (s : SchedState) (db : DB) : SchedState × DB :=
  let s1 := reset_daily_counter s today
  if s1.dailyQuota ≤ s1.currentDayProcessed then (s1, db)
  else runBatch crawl (selectBatch s1 db) (s1, db)

/-- A sequence of scheduler ticks (`process_pending_jobs` invocations),
each observing a current date. -/
def runSched (crawl : String → String → DB → DB × Option String)
    (ticks : List Date) (s : SchedState) (db : DB) : SchedState × DB :=
  ticks.foldl (fun acc t => process_pending_jobs crawl t acc.1 acc.2) (s, db)

/-! ### InterestAnalyzer._store_interest_results (interest_analyzer.py, 257-283) -/

/-- One element of the classifier response's `results` array; `.get` on
the parsed JSON dict yields `None` for absent keys, and `confidence`
defaults to 0.5. -/
structure ClassResult where
  username : Option String
  category : Option String
  confidence : Option Rat
deriving Repr, DecidableEq

/-- `INSERT INTO interests ... ON CONFLICT (user_id, category_id) DO
UPDATE SET confidence_score = EXCLUDED.confidence_score`. -/
def upsertInterest (db : DB) (uid : String) (cid : Nat) (conf : Rat) : DB :=
  if db.interests.any (fun r => decide (r.userId = uid ∧ r.categoryId = cid)) then
    { db with interests :=
        db.interests.map (fun r =>
          if r.userId = uid ∧ r.categoryId = cid then
            { r with confidence := conf } else r) }
  else { db with interests := db.interests ++ [⟨uid, cid, conf⟩] }

/-- Resolve one result against the category mapping (name → id, the dict
built by `get_category_mapping`): the (category_id, confidence) pair it
will upsert, or `none` when the result is skipped because its category
(or a missing category field) is not an exact member of the taxonomy. -/
def resolveResult (mapping : List (String × Nat)) (r : ClassResult) :
    Option (Nat × Rat) :=
  match r.category with
  | none => none
  | some cat =>
    match mapping.find? (fun q => q.1 = cat) with
    | none => none
    | some q => some (q.2, r.confidence.getD (1 / 2 : Rat))

/-- `InterestAnalyzer._store_interest_results`: for each result, skip it
when its category is not in the mapping (logged warning only), otherwise
upsert `(user_id, category_id)` — `user_id` being the analyzed account the
caller passed in; a single commit at the end (single-store view). -/
def store_interest_results (db : DB) (uid : String) (results : List ClassResult)
    (mapping : List (String × Nat)) : DB :=
  results.foldl (fun d r =>
    match resolveResult mapping r with
    | none => d
    | some q => upsertInterest d uid q.1 q.2) db

/-- The stored confidence for a (user, category) key. -/
def lookupInterest (db : DB) (uid : String) (cid : Nat) : Option Rat :=
  (db.interests.find? (fun r => decide (r.userId = uid ∧ r.categoryId = cid))).map
    (·.confidence)

/-- The confidence of the last result in the list that validly resolves to
the given category id (the value last-write-wins should leave). -/
def lastValidConf (mapping : List (String × Nat)) :
    List ClassResult → Nat → Option Rat
  | [], _ => none
  | r :: rest, cid =>
    (lastValidConf mapping rest cid).orElse (fun _ =>
      match resolveResult mapping r with
      | some q => if q.1 = cid then some q.2 else none
      | none => none)

/-! ### Characterization helpers and concrete instances used in the
theorems below. -/

/-- The follower-edge rows produced by processing a list of listed
accounts for target `uid`, starting from edge table `fl`. -/
def insEdges (uid : String) (l : List UserRow) (fl : List (String × String)) :
    List (String × String) :=
  l.foldl (fun f it => insPair f (uid, it.userId)) fl

/-- Invariant of the proxy pool: the pool always holds a permutation of
the base list (the reload floor restores it after every eviction) and the
rotation index is below 3 = its length. -/
def ProxyInv (m : ProxyManager) : Prop :=
  m.proxies.Perm baseProxies ∧ m.currentIndex < 3

/-- A crawler listing oracle: "acct1" has user id "t" and one follower. -/
def oneFollowerListing : String → Option (String × List UserRow) :=
  fun u => if u = "acct1" then some ("t", [⟨"a1", "alice"⟩]) else none

/-- The scheduler's dispatch instantiated with the scraper models
(`get_user_profile`, `get_followers`, `get_following`), each called
without a `max_count`, exactly as `process_pending_jobs` calls them. -/
def realCrawl (profiles : String → Option (String × List UserRow)) (now : Int) :
    String → String → DB → DB × Option String :=
  fun ty target db =>
    if ty = "profile" then get_user_profile db target profiles
    else if ty = "followers" then
      let r := get_followers db target none profiles now
      (r.p.wrk, r.err)
    else if ty = "following" then
      let r := get_following db target none profiles now
      (r.p.wrk, r.err)
    else (db, none)

/-- A store holding a single dispatched-ready pending followers job. -/
def pendingFollowersDB : DB :=
  { DB.empty with
      jobs := [⟨1, "acct1", "followers", "pending", none, none, none, 0, none⟩],
      nextJobId := 2 }

/-- A store where target "t" has one account "a" in both edge directions
and no mutual row yet. -/
def oneMutualDB : DB :=
  { DB.empty with
      users := [⟨"t", "target"⟩, ⟨"a", "alice"⟩],
      followers := [("t", "a")],
      following := [("t", "a")] }

/-- A crawler stub whose every operation raises. -/
def crawlBoom : String → String → DB → DB × Option String :=
  fun _ _ db => (db, some "boom")

/-- Five distinct listed follower accounts. -/
def fiveItems : List UserRow :=
  [⟨"a1", "u1"⟩, ⟨"a2", "u2"⟩, ⟨"a3", "u3"⟩, ⟨"a4", "u4"⟩, ⟨"a5", "u5"⟩]

/-! ## Theorems -/

/-- C6, counterexample: with the counter last reset on 2024-01-15 (the
scheduler records only `last_day = 15`) and 37 jobs processed, a tick on
2024-02-15 — a different calendar date — resets nothing: the claim says a
date change always resets the counter. -/
theorem C6_counterexample :
    (Date.mk 2024 1 15 ≠ Date.mk 2024 2 15) ∧
    reset_daily_counter ⟨200, 37, 15⟩ ⟨2024, 2, 15⟩ = ⟨200, 37, 15⟩ := by
  decide

/-- C6 (amended): the counter is reset if and only if the day-of-month
component of the current date differs from the stored `last_day`
— a pure function of (storedDayOfMonth, currentDate), independent of
elapsed wall-clock time, but blind to month/year changes that preserve
the day-of-month. -/
theorem C6_reset_iff_day_of_month (s : SchedState) (d : Date)
    (h : s.currentDayProcessed ≠ 0) :
    ((reset_daily_counter s d).currentDayProcessed = 0 ↔ d.day ≠ s.lastDay) ∧
    (reset_daily_counter s d).dailyQuota = s.dailyQuota ∧
    (d.day = s.lastDay → reset_daily_counter s d = s) := by
  unfold reset_daily_counter
  by_cases hd : d.day = s.lastDay <;> simp [hd, h]

/-- C6 witness: a concrete state with 37 processed and `last_day = 15`,
ticked on 2024-02-16. -/
theorem C6_reset_iff_day_of_month_witness :
    (37 : Nat) ≠ 0 ∧
    ((reset_daily_counter ⟨200, 37, 15⟩ ⟨2024, 2, 16⟩).currentDayProcessed = 0 ↔
      (16 : Nat) ≠ 15) :=
  ⟨by decide, (C6_reset_iff_day_of_month ⟨200, 37, 15⟩ ⟨2024, 2, 16⟩ (by decide)).1⟩

/-- C4, counterexample: enrolling "acct1" into an empty store creates
three jobs, and immediately re-enrolling creates three more (total six):
the fresh pending jobs carry a NULL `started_at`, which the dedup query
`started_at > now - 7 days` never matches, so re-enrollment within the
window is not a no-op as the claim states. -/
theorem C4_counterexample :
    (schedule_user_scraping DB.empty "acct1" 0).jobs.length = 3 ∧
    (schedule_user_scraping (schedule_user_scraping DB.empty "acct1" 0)
        "acct1" 0).jobs.length = 6 := by
  decide

/-- C4 (amended): enrollment creates exactly one pending CrawlJob per
jobType for the target, unless some job of those types has a *non-NULL*
`started_at` within the last 7 days; jobs still pending from a prior
enrollment have `started_at` NULL and do not block re-enrollment. -/
theorem C4_enroll_dedup (db : DB) (uname : String) (now : Int) :
    (hasRecentJob db uname now = false →
      (schedule_user_scraping db uname now).jobs =
        db.jobs ++
          [⟨db.nextJobId, uname, "profile", "pending", none, none, none, 0, none⟩,
           ⟨db.nextJobId + 1, uname, "followers", "pending", none, none, none, 0, none⟩,
           ⟨db.nextJobId + 2, uname, "following", "pending", none, none, none, 0, none⟩]) ∧
    (hasRecentJob db uname now = true → schedule_user_scraping db uname now = db) ∧
    (hasRecentJob db uname now = true ↔
      ∃ j ∈ db.jobs, j.target = uname ∧
        (j.jobType = "profile" ∨ j.jobType = "followers" ∨ j.jobType = "following") ∧
        ∃ t, j.startedAt = some t ∧ now - sevenDays < t) := by
  refine ⟨?_, ?_, ?_⟩
  · intro h
    simp [schedule_user_scraping, h, insertJob]
  · intro h
    simp [schedule_user_scraping, h]
  · constructor
    · intro h
      rcases List.any_eq_true.mp h with ⟨j, hj, hrec⟩
      unfold isRecentJob at hrec
      rcases hts : j.startedAt with _ | t
      · rw [hts] at hrec; simp at hrec
      · rw [hts] at hrec
        simp only [Bool.and_eq_true, decide_eq_true_eq] at hrec
        exact ⟨j, hj, hrec.1.1, hrec.1.2, t, hts, hrec.2⟩
    · rintro ⟨j, hj, h1, h2, t, hts, hlt⟩
      apply List.any_eq_true.mpr
      refine ⟨j, hj, ?_⟩
      unfold isRecentJob
      rw [hts]
      simp [h1, h2, hlt]

/-- C4 witness: enrolling a fresh target into the empty store. -/
theorem C4_enroll_dedup_witness :
    hasRecentJob DB.empty "acct1" 0 = false ∧
    (schedule_user_scraping DB.empty "acct1" 0).jobs =
      [⟨1, "acct1", "profile", "pending", none, none, none, 0, none⟩,
       ⟨2, "acct1", "followers", "pending", none, none, none, 0, none⟩,
       ⟨3, "acct1", "following", "pending", none, none, none, 0, none⟩] :=
  ⟨by decide, by
    have h := (C4_enroll_dedup DB.empty "acct1" 0).1 (by decide)
    simpa using h⟩

/-- C1: the code violates the claim.  With a single pending 'followers'
job (job 1) for "acct1" and a crawl that succeeds on one listed follower,
`process_pending_jobs` leaves job 1 in status 'pending': the scraper's
`get_followers` INSERTs a *new* `scrape_jobs` row (job 2) and drives that
row pending-less through in_progress → completed, never touching the
dispatched record, which is selected again by the very next tick's batch
query.  (The failure path does update the dispatched row, and the quota
and dedup design presuppose processed jobs leave 'pending', so the
success path is a slip in the code.) -/
theorem C1_code_bug :
    ((process_pending_jobs (realCrawl oneFollowerListing 1000) ⟨2024, 1, 5⟩
        ⟨200, 0, 5⟩ pendingFollowersDB).2.jobs.map
          (fun j => (j.jobId, j.jobType, j.status)) =
      [(1, "followers", "pending"), (2, "followers", "completed")]) ∧
    ((selectBatch ⟨200, 1, 5⟩
        (process_pending_jobs (realCrawl oneFollowerListing 1000) ⟨2024, 1, 5⟩
          ⟨200, 0, 5⟩ pendingFollowersDB).2).map (·.jobId) = [1]) := by
  decide

/-! ### Lemmas about the pair-table insert -/

theorem mem_insPair {l : List (String × String)} {p q : String × String} :
    q ∈ insPair l p ↔ q ∈ l ∨ q = p := by
  unfold insPair
  by_cases h : p ∈ l
  · simp only [if_pos h]
    exact ⟨Or.inl, fun hq => hq.elim id (fun e => e ▸ h)⟩
  · simp [if_neg h, List.mem_append]

theorem insPair_of_mem {l : List (String × String)} {p : String × String}
    (h : p ∈ l) : insPair l p = l := by
  unfold insPair; simp [h]

theorem insPair_of_not_mem {l : List (String × String)} {p : String × String}
    (h : p ∉ l) : insPair l p = l ++ [p] := by
  unfold insPair; simp [h]

theorem foldl_insPair_mem (l m : List (String × String)) (q : String × String) :
    q ∈ l.foldl insPair m ↔ q ∈ m ∨ q ∈ l := by
  induction l generalizing m with
  | nil => simp
  | cons p rest ih =>
    rw [List.foldl_cons, ih, mem_insPair]
    simp [or_assoc]

theorem foldl_insPair_of_subset {l m : List (String × String)}
    (h : ∀ p ∈ l, p ∈ m) : l.foldl insPair m = m := by
  induction l with
  | nil => rfl
  | cons p rest ih =>
    rw [List.foldl_cons, insPair_of_mem (h p (by simp))]
    exact ih (fun q hq => h q (by simp [hq]))

theorem foldl_insPair_length (l : List (String × String)) :
    ∀ m : List (String × String), l.Nodup →
      (l.foldl insPair m).length =
        m.length + (l.filter (fun p => decide (p ∉ m))).length := by
  induction l with
  | nil => intro m _; simp
  | cons p rest ih =>
    intro m hnd
    rcases List.nodup_cons.mp hnd with ⟨hp, hrest⟩
    by_cases hm : p ∈ m
    · rw [List.foldl_cons, insPair_of_mem hm, ih m hrest]
      simp [List.filter_cons, hm]
    · rw [List.foldl_cons, insPair_of_not_mem hm, ih _ hrest]
      have hfeq : rest.filter (fun q => decide (q ∉ m ++ [p])) =
          rest.filter (fun q => decide (q ∉ m)) := by
        apply List.filter_congr
        intro x hx
        have hxp : x ≠ p := fun e => hp (e ▸ hx)
        simp [List.mem_append, hxp]
      rw [hfeq]
      simp [List.filter_cons, hm, List.length_append]
      omega

theorem foldl_insertMutual (l : List (String × String)) (db : DB) :
    l.foldl (fun d p => insertMutualEdge d p.1 p.2) db =
      { db with mutuals := l.foldl insPair db.mutuals } := by
  induction l generalizing db with
  | nil => rfl
  | cons p rest ih =>
    rw [List.foldl_cons, List.foldl_cons, ih]
    rfl

theorem mem_mutualPairs {db : DB} {uid : String} {q : String × String} :
    q ∈ mutualPairs db uid ↔ q ∈ db.followers ∧ q.1 = uid ∧ q ∈ db.following := by
  unfold mutualPairs
  simp [List.mem_filter]

/-- Unfolding of `calculate_mutual_followers` on a found user: the join
rows are folded into `mutuals` and `rowcount` is the length difference. -/
theorem calc_mutual_eq (db : DB) (uname uid : String)
    (hu : lookupUserId db uname = some uid) :
    calculate_mutual_followers db uname =
      ⟨{ db with mutuals := (mutualPairs db uid).foldl insPair db.mutuals }, none,
       some (((mutualPairs db uid).foldl insPair db.mutuals).length -
             db.mutuals.length)⟩ := by
  unfold calculate_mutual_followers
  rw [hu]
  dsimp only
  rw [foldl_insertMutual]

/-- C2, counterexample: one new mutual edge is inserted for "target", yet
the operation's return value is `None` — `calculate_mutual_followers`
only *logs* `cursor.rowcount` and has no return statement — so the claim
that it "returns the count of newly inserted edges" fails. -/
theorem C2_counterexample :
    (calculate_mutual_followers oneMutualDB "target").db.mutuals.length =
      oneMutualDB.mutuals.length + 1 ∧
    (calculate_mutual_followers oneMutualDB "target").ret = none := by
  decide

/-- C2 (amended): for a target present in `users` (with unique follower
rows, as the UNIQUE constraint guarantees), `calculate_mutual_followers`
inserts a MutualEdge exactly for each element of the intersection of the
follower- and following-direction edge sets not already present, *logs*
(rather than returns — the function returns `None`) the count of newly
inserted rows, leaves every other table untouched, yields an empty
intersection on an empty edge set, and is idempotent: an immediate rerun
changes nothing and logs zero. -/
theorem C2_mutuals (db : DB) (uname uid : String)
    (hu : lookupUserId db uname = some uid) (hnd : db.followers.Nodup) :
    (∀ a x, (a, x) ∈ (calculate_mutual_followers db uname).db.mutuals ↔
        (a, x) ∈ db.mutuals ∨
          (a = uid ∧ (a, x) ∈ db.followers ∧ (a, x) ∈ db.following)) ∧
    (calculate_mutual_followers db uname).db.users = db.users ∧
    (calculate_mutual_followers db uname).db.followers = db.followers ∧
    (calculate_mutual_followers db uname).db.following = db.following ∧
    (calculate_mutual_followers db uname).ret = none ∧
    (calculate_mutual_followers db uname).logged =
      some (((mutualPairs db uid).filter (fun p => decide (p ∉ db.mutuals))).length) ∧
    (db.followers = [] ∨ db.following = [] →
      (calculate_mutual_followers db uname).db.mutuals = db.mutuals) ∧
    (calculate_mutual_followers (calculate_mutual_followers db uname).db uname).db =
      (calculate_mutual_followers db uname).db ∧
    (calculate_mutual_followers (calculate_mutual_followers db uname).db uname).logged =
      some 0 := by
  rw [calc_mutual_eq db uname uid hu]
  have hpnd : (mutualPairs db uid).Nodup := List.Nodup.filter _ hnd
  have hlen := foldl_insPair_length (mutualPairs db uid) db.mutuals hpnd
  have hu2 : lookupUserId
      { db with mutuals := (mutualPairs db uid).foldl insPair db.mutuals } uname =
      some uid := hu
  have hpairs2 : mutualPairs
      { db with mutuals := (mutualPairs db uid).foldl insPair db.mutuals } uid =
      mutualPairs db uid := rfl
  refine ⟨?_, rfl, rfl, rfl, rfl, ?_, ?_, ?_, ?_⟩
  · intro a x
    rw [foldl_insPair_mem, mem_mutualPairs]
    constructor
    · rintro (h | ⟨h1, h2, h3⟩)
      · exact Or.inl h
      · exact Or.inr ⟨h2, h1, h3⟩
    · rintro (h | ⟨h1, h2, h3⟩)
      · exact Or.inl h
      · exact Or.inr ⟨h2, h1, h3⟩
  · rw [hlen]
    simp
  · intro h
    have hempty : mutualPairs db uid = [] := by
      rcases h with h | h
      · unfold mutualPairs; rw [h]; rfl
      · unfold mutualPairs
        apply List.eq_nil_iff_forall_not_mem.mpr
        intro q hq
        rw [List.mem_filter] at hq
        rcases hq with ⟨_, hq2⟩
        rw [decide_eq_true_eq] at hq2
        rw [h] at hq2
        exact absurd hq2.2 (List.not_mem_nil q)
    rw [hempty]
    rfl
  · rw [calc_mutual_eq _ uname uid hu2, hpairs2]
    rw [foldl_insPair_of_subset (fun p hp =>
      (foldl_insPair_mem _ _ p).mpr (Or.inr hp))]
  · rw [calc_mutual_eq _ uname uid hu2, hpairs2]
    rw [foldl_insPair_of_subset (fun p hp =>
      (foldl_insPair_mem _ _ p).mpr (Or.inr hp))]
    simp

/-- C2 witness: the one-mutual store; the rerun after computing mutuals
for "target" inserts zero rows. -/
theorem C2_mutuals_witness :
    lookupUserId oneMutualDB "target" = some "t" ∧
    oneMutualDB.followers.Nodup ∧
    (calculate_mutual_followers (calculate_mutual_followers oneMutualDB "target").db
        "target").logged = some 0 :=
  ⟨by decide, by decide,
   (C2_mutuals oneMutualDB "target" "t" (by decide) (by decide)).2.2.2.2.2.2.2.2⟩

/-! ### Lemmas about the scheduler's dispatch loop -/

theorem processOneJob_sched (crawl : String → String → DB → DB × Option String)
    (j : JobRow) (sd : SchedState × DB) :
    (processOneJob crawl j sd).1.dailyQuota = sd.1.dailyQuota ∧
    (processOneJob crawl j sd).1.lastDay = sd.1.lastDay ∧
    sd.1.currentDayProcessed ≤ (processOneJob crawl j sd).1.currentDayProcessed ∧
    (processOneJob crawl j sd).1.currentDayProcessed ≤
      sd.1.currentDayProcessed + 1 := by
  unfold processOneJob
  rcases h : (dispatchCrawl crawl j.jobType j.target sd.2).2 with _ | msg <;>
    simp [h]

theorem runBatch_sched (crawl : String → String → DB → DB × Option String)
    (batch : List JobRow) :
    ∀ sd : SchedState × DB,
      (runBatch crawl batch sd).1.dailyQuota = sd.1.dailyQuota ∧
      (runBatch crawl batch sd).1.lastDay = sd.1.lastDay ∧
      (runBatch crawl batch sd).1.currentDayProcessed ≤
        sd.1.currentDayProcessed + batch.length := by
  induction batch with
  | nil =>
    intro sd
    exact ⟨rfl, rfl, Nat.le_add_right _ _⟩
  | cons j rest ih =>
    intro sd
    have h1 := processOneJob_sched crawl j sd
    have h2 := ih (processOneJob crawl j sd)
    unfold runBatch at h2 ⊢
    rw [List.foldl_cons]
    refine ⟨h2.1.trans h1.1, h2.2.1.trans h1.2.1, ?_⟩
    have ha := h2.2.2
    have hb := h1.2.2.2
    simp only [List.length_cons]
    omega

theorem selectBatch_length (s : SchedState) (db : DB) :
    (selectBatch s db).length ≤ min (s.dailyQuota - s.currentDayProcessed) 10 := by
  unfold selectBatch
  rw [List.length_take]
  exact min_le_left _ _

theorem selectBatch_pending (s : SchedState) (db : DB) :
    ∀ j ∈ selectBatch s db, j.status = "pending" := by
  intro j hj
  unfold selectBatch at hj
  have hmem := List.mem_of_mem_take hj
  rw [List.mem_filter] at hmem
  exact of_decide_eq_true hmem.2

theorem tick_at_quota (crawl : String → String → DB → DB × Option String)
    (t : Date) (s : SchedState) (db : DB) (hday : t.day = s.lastDay)
    (hq : s.dailyQuota ≤ s.currentDayProcessed) :
    process_pending_jobs crawl t s db = (s, db) := by
  unfold process_pending_jobs
  have hreset : reset_daily_counter s t = s := by
    unfold reset_daily_counter; simp [hday]
  rw [hreset]
  simp [hq]

theorem tick_same_day (crawl : String → String → DB → DB × Option String)
    (t : Date) (s : SchedState) (db : DB) (hday : t.day = s.lastDay)
    (hle : s.currentDayProcessed ≤ s.dailyQuota) :
    (process_pending_jobs crawl t s db).1.dailyQuota = s.dailyQuota ∧
    (process_pending_jobs crawl t s db).1.lastDay = s.lastDay ∧
    (process_pending_jobs crawl t s db).1.currentDayProcessed ≤ s.dailyQuota := by
  unfold process_pending_jobs
  have hreset : reset_daily_counter s t = s := by
    unfold reset_daily_counter; simp [hday]
  rw [hreset]
  by_cases hq : s.dailyQuota ≤ s.currentDayProcessed
  · simp [hq, hle]
  · simp only [if_neg hq]
    have hb : (runBatch crawl (selectBatch s db) (s, db)).1.currentDayProcessed ≤
        s.currentDayProcessed + (selectBatch s db).length :=
      (runBatch_sched crawl (selectBatch s db) (s, db)).2.2
    have hq1 : (runBatch crawl (selectBatch s db) (s, db)).1.dailyQuota =
        s.dailyQuota :=
      (runBatch_sched crawl (selectBatch s db) (s, db)).1
    have hq2 : (runBatch crawl (selectBatch s db) (s, db)).1.lastDay = s.lastDay :=
      (runBatch_sched crawl (selectBatch s db) (s, db)).2.1
    have hlen : (selectBatch s db).length ≤ s.dailyQuota - s.currentDayProcessed :=
      (selectBatch_length s db).trans (min_le_left _ _)
    exact ⟨hq1, hq2, by omega⟩

theorem runSched_le (crawl : String → String → DB → DB × Option String)
    (ticks : List Date) :
    ∀ (s : SchedState) (db : DB), (∀ t ∈ ticks, t.day = s.lastDay) →
      s.currentDayProcessed ≤ s.dailyQuota →
      (runSched crawl ticks s db).1.dailyQuota = s.dailyQuota ∧
      (runSched crawl ticks s db).1.lastDay = s.lastDay ∧
      (runSched crawl ticks s db).1.currentDayProcessed ≤ s.dailyQuota := by
  induction ticks with
  | nil =>
    intro s db _ hle
    exact ⟨rfl, rfl, hle⟩
  | cons t rest ih =>
    intro s db hday hle
    have h1 := tick_same_day crawl t s db (hday t (by simp)) hle
    have ih2 := ih (process_pending_jobs crawl t s db).1
      (process_pending_jobs crawl t s db).2
      (fun t2 ht2 => by rw [h1.2.1]; exact hday t2 (by simp [ht2]))
      (by rw [h1.1]; exact h1.2.2)
    unfold runSched at ih2 ⊢
    rw [List.foldl_cons]
    exact ⟨ih2.1.trans h1.1, ih2.2.1.trans h1.2.1, by rw [h1.1] at ih2; exact ih2.2.2⟩

/-- C3: within a single calendar day (every tick's date has the stored
day-of-month, so no reset fires) and starting at or below quota, the
daily-processed counter never exceeds the configured quota over any
sequence of `process_pending_jobs` invocations; a tick that starts at
quota returns the state and store untouched; and every batch selects at
most min(remainingQuota, 10) jobs, all of them 'pending'. -/
theorem C3_daily_quota (crawl : String → String → DB → DB × Option String)
    (ticks : List Date) (s : SchedState) (db : DB)
    (hday : ∀ t ∈ ticks, t.day = s.lastDay)
    (hle : s.currentDayProcessed ≤ s.dailyQuota) :
    (runSched crawl ticks s db).1.currentDayProcessed ≤ s.dailyQuota ∧
    (runSched crawl ticks s db).1.dailyQuota = s.dailyQuota ∧
    (∀ t : Date, t.day = s.lastDay → s.dailyQuota ≤ s.currentDayProcessed →
      process_pending_jobs crawl t s db = (s, db)) ∧
    (selectBatch s db).length ≤ min (s.dailyQuota - s.currentDayProcessed) 10 ∧
    (∀ j ∈ selectBatch s db, j.status = "pending") :=
  ⟨(runSched_le crawl ticks s db hday hle).2.2,
   (runSched_le crawl ticks s db hday hle).1,
   fun t ht hq => tick_at_quota crawl t s db ht hq,
   selectBatch_length s db,
   selectBatch_pending s db⟩

/-- C3 witness: one tick on the stored day, starting from zero processed,
with a crawler stub and one pending job. -/
theorem C3_daily_quota_witness :
    (∀ t ∈ [Date.mk 2024 1 5], t.day = (5 : Nat)) ∧ (0 : Nat) ≤ 200 ∧
    (runSched crawlBoom [⟨2024, 1, 5⟩] ⟨200, 0, 5⟩
        pendingFollowersDB).1.currentDayProcessed ≤ 200 :=
  ⟨by decide, by decide,
   (C3_daily_quota crawlBoom [⟨2024, 1, 5⟩] ⟨200, 0, 5⟩ pendingFollowersDB
     (by decide) (by decide)).1⟩

/-- C7: when the crawler operation for a batch job raises, the scheduler
marks that dispatched job 'failed' with the error message on top of
whatever store state the scraper left behind, does not increment the
daily counter (the scheduler state is returned unchanged), continues the
batch fold with the remaining jobs, and — since the batch query selects
only 'pending' rows — a failed job is never selected again. -/
theorem C7_failed_job (crawl : String → String → DB → DB × Option String)
    (s : SchedState) (db : DB) (j : JobRow) (rest : List JobRow) (msg : String)
    (herr : (dispatchCrawl crawl j.jobType j.target db).2 = some msg) :
    processOneJob crawl j (s, db) =
      (s, updateJob (dispatchCrawl crawl j.jobType j.target db).1 j.jobId
          (fun jr => { jr with status := "failed", errorMessage := some msg })) ∧
    runBatch crawl (j :: rest) (s, db) =
      runBatch crawl rest (processOneJob crawl j (s, db)) ∧
    (∀ s2 db2, ∀ j2 ∈ selectBatch s2 db2, j2.status = "pending") := by
  refine ⟨?_, ?_, fun s2 db2 j2 h => selectBatch_pending s2 db2 j2 h⟩
  · unfold processOneJob
    dsimp only
    rw [herr]
  · unfold runBatch
    rw [List.foldl_cons]

/-- C7 witness: a crawler stub that raises "boom" on the one pending job. -/
theorem C7_failed_job_witness :
    (dispatchCrawl crawlBoom "followers" "acct1" pendingFollowersDB).2 =
      some "boom" ∧
    processOneJob crawlBoom
        ⟨1, "acct1", "followers", "pending", none, none, none, 0, none⟩
        (⟨200, 0, 5⟩, pendingFollowersDB) =
      (⟨200, 0, 5⟩,
       updateJob (dispatchCrawl crawlBoom "followers" "acct1" pendingFollowersDB).1 1
         (fun jr => { jr with status := "failed", errorMessage := some "boom" })) :=
  ⟨by decide,
   (C7_failed_job crawlBoom ⟨200, 0, 5⟩ pendingFollowersDB
     ⟨1, "acct1", "followers", "pending", none, none, none, 0, none⟩ [] "boom"
     (by decide)).1⟩

/-! ### Lemmas about the scraper's per-item loop -/

theorem insertUserIfAbsent_followers (db : DB) (uid uname : String) :
    (insertUserIfAbsent db uid uname).followers = db.followers := by
  unfold insertUserIfAbsent
  by_cases h : db.users.any (fun u => u.userId = uid) <;> simp [h]

theorem insertUserIfAbsent_jobs (db : DB) (uid uname : String) :
    (insertUserIfAbsent db uid uname).jobs = db.jobs := by
  unfold insertUserIfAbsent
  by_cases h : db.users.any (fun u => u.userId = uid) <;> simp [h]

theorem followerInsert_followers (uid : String) (item : UserRow) (w : DB) :
    (followerInsert uid item w).followers = insPair w.followers (uid, item.userId) := by
  show insPair (insertUserIfAbsent w item.userId item.username).followers
      (uid, item.userId) = insPair w.followers (uid, item.userId)
  rw [insertUserIfAbsent_followers]

theorem followerInsert_jobs (uid : String) (item : UserRow) (w : DB) :
    (followerInsert uid item w).jobs = w.jobs := by
  show (insertUserIfAbsent w item.userId item.username).jobs = w.jobs
  exact insertUserIfAbsent_jobs w item.userId item.username

theorem followerItemStep_wrk_followers (uid : String) (jid : Nat) (item : UserRow)
    (cnt : Nat) (p : DBP) :
    (followerItemStep uid jid item cnt p).wrk.followers =
      insPair p.wrk.followers (uid, item.userId) := by
  unfold followerItemStep
  by_cases h : cnt % 10 = 0
  · rw [if_pos h]
    show (followerInsert uid item p.wrk).followers = _
    exact followerInsert_followers uid item p.wrk
  · rw [if_neg h]
    exact followerInsert_followers uid item p.wrk

theorem followerItemStep_wrk_jobs (uid : String) (jid : Nat) (item : UserRow)
    (cnt : Nat) (p : DBP) :
    (followerItemStep uid jid item cnt p).wrk.jobs =
      if cnt % 10 = 0 then updateJobs p.wrk.jobs jid (setProcessed cnt)
      else p.wrk.jobs := by
  unfold followerItemStep
  by_cases h : cnt % 10 = 0
  · rw [if_pos h, if_pos h]
    show updateJobs (followerInsert uid item p.wrk).jobs jid (setProcessed cnt) = _
    rw [followerInsert_jobs]
  · rw [if_neg h, if_neg h]
    exact followerInsert_jobs uid item p.wrk

theorem followerItemStep_dur_followers (uid : String) (jid : Nat) (item : UserRow)
    (cnt : Nat) (p : DBP) :
    (followerItemStep uid jid item cnt p).dur.followers =
      if cnt % 10 = 0 then insPair p.wrk.followers (uid, item.userId)
      else p.dur.followers := by
  unfold followerItemStep
  by_cases h : cnt % 10 = 0
  · rw [if_pos h, if_pos h]
    show (followerInsert uid item p.wrk).followers = _
    exact followerInsert_followers uid item p.wrk
  · rw [if_neg h, if_neg h]

theorem followersLoop_zero (uid : String) (jid : Nat) (mc : Option Nat)
    (items : List UserRow) (cnt : Nat) (p : DBP) :
    followersLoop uid jid mc 0 items cnt p = (cnt, p) := rfl

theorem followersLoop_fuel_nil (uid : String) (jid : Nat) (mc : Option Nat)
    (f cnt : Nat) (p : DBP) :
    followersLoop uid jid mc (f + 1) [] cnt p = (cnt, p) := rfl

theorem followersLoop_cons (uid : String) (jid : Nat) (mc : Option Nat)
    (f : Nat) (it : UserRow) (rest : List UserRow) (cnt : Nat) (p : DBP) :
    followersLoop uid jid mc (f + 1) (it :: rest) cnt p =
      (if stopNow mc (cnt + 1) then
        ((cnt + 1), followerItemStep uid jid it (cnt + 1) p)
       else followersLoop uid jid mc f rest (cnt + 1)
         (followerItemStep uid jid it (cnt + 1) p)) := rfl

theorem insEdges_cons (uid : String) (it : UserRow) (l : List UserRow)
    (fl : List (String × String)) :
    insEdges uid (it :: l) fl = insEdges uid l (insPair fl (uid, it.userId)) := rfl

theorem insEdges_eq_foldl (uid : String) (l : List UserRow)
    (fl : List (String × String)) :
    insEdges uid l fl =
      (l.map (fun it => (uid, it.userId))).foldl insPair fl := by
  unfold insEdges
  rw [List.foldl_map]

theorem setProcessed_jobId (m : Nat) (j : JobRow) :
    (setProcessed m j).jobId = j.jobId := rfl

theorem updateJobs_comp (l : List JobRow) (jid : Nat) (f g : JobRow → JobRow)
    (hf : ∀ j, (f j).jobId = j.jobId) :
    updateJobs (updateJobs l jid f) jid g = updateJobs l jid (fun j => g (f j)) := by
  unfold updateJobs
  rw [List.map_map]
  apply List.map_congr_left
  intro j _
  by_cases h : j.jobId = jid
  · simp [Function.comp, h, hf j]
  · simp [Function.comp, h]

theorem updateJobs_congr (l : List JobRow) (jid : Nat) (f g : JobRow → JobRow)
    (h : ∀ j, f j = g j) : updateJobs l jid f = updateJobs l jid g := by
  unfold updateJobs
  apply List.map_congr_left
  intro j _
  by_cases hj : j.jobId = jid <;> simp [hj, h j]

theorem updateJobs_append (l1 l2 : List JobRow) (jid : Nat) (f : JobRow → JobRow) :
    updateJobs (l1 ++ l2) jid f = updateJobs l1 jid f ++ updateJobs l2 jid f := by
  unfold updateJobs
  rw [List.map_append]

theorem updateJobs_of_ne (l : List JobRow) (jid : Nat) (f : JobRow → JobRow) :
    ∀ _h : ∀ j ∈ l, j.jobId ≠ jid, updateJobs l jid f = l := by
  induction l with
  | nil => intro _; rfl
  | cons j rest ih =>
    intro h
    unfold updateJobs at ih ⊢
    simp only [List.map_cons]
    rw [if_neg (h j (by simp))]
    rw [ih (fun q hq => h q (by simp [hq]))]

theorem updateJobs_singleton (j : JobRow) (jid : Nat) (f : JobRow → JobRow)
    (h : j.jobId = jid) : updateJobs [j] jid f = [f j] := by
  unfold updateJobs
  simp [h]

theorem updateJobs_setProcessed_then (l : List JobRow) (jid : Nat) (m : Nat)
    (g : JobRow → JobRow) (hg : ∀ j k, g (setProcessed k j) = g j) :
    updateJobs (updateJobs l jid (setProcessed m)) jid g = updateJobs l jid g := by
  rw [updateJobs_comp _ _ _ _ (fun j => setProcessed_jobId _ j)]
  exact updateJobs_congr _ _ _ _ (fun j => hg j m)

/-- Master characterization of the `get_followers` loop under a truthy
`max_count = n` (n ≥ 1): it processes exactly min n (cnt + length) - cnt
items, its working follower table accumulates their edges, and its working
job table differs from the input at most by a `processed_items`
checkpoint on the fetch's own job row. -/
theorem followersLoop_some_master (uid : String) (jid : Nat) (n : Nat) :
    ∀ (items : List UserRow) (fuel cnt : Nat) (p : DBP),
      items.length ≤ fuel → cnt < n →
      (followersLoop uid jid (some n) fuel items cnt p).1 =
          min n (cnt + items.length) ∧
      (followersLoop uid jid (some n) fuel items cnt p).2.wrk.followers =
          insEdges uid (items.take (min n (cnt + items.length) - cnt))
            p.wrk.followers ∧
      ((followersLoop uid jid (some n) fuel items cnt p).2.wrk.jobs =
          p.wrk.jobs ∨
        ∃ m, (followersLoop uid jid (some n) fuel items cnt p).2.wrk.jobs =
          updateJobs p.wrk.jobs jid (setProcessed m)) := by
  intro items
  induction items with
  | nil =>
    intro fuel cnt p _ hcn
    have hmin : min n (cnt + ([] : List UserRow).length) = cnt := by
      simp only [List.length_nil, Nat.add_zero]
      omega
    have hloop : followersLoop uid jid (some n) fuel [] cnt p = (cnt, p) := by
      cases fuel with
      | zero => exact followersLoop_zero uid jid (some n) [] cnt p
      | succ f => exact followersLoop_fuel_nil uid jid (some n) f cnt p
    rw [hloop, hmin]
    refine ⟨rfl, ?_, Or.inl rfl⟩
    rw [Nat.sub_self]
    rfl
  | cons it rest ih =>
    intro fuel cnt p hlen hcn
    cases fuel with
    | zero => simp at hlen
    | succ f =>
      have hlen2 : rest.length ≤ f := by simpa using hlen
      have hn0 : n ≠ 0 := by omega
      by_cases hstop : n ≤ cnt + 1
      · have hstopv : stopNow (some n) (cnt + 1) = true := by
          unfold stopNow
          dsimp only
          rw [if_neg hn0]
          exact decide_eq_true hstop
        have hred : followersLoop uid jid (some n) (f + 1) (it :: rest) cnt p =
            (cnt + 1, followerItemStep uid jid it (cnt + 1) p) := by
          rw [followersLoop_cons, hstopv]
          rfl
        rw [hred]
        have hmin : min n (cnt + (it :: rest).length) = cnt + 1 := by
          simp only [List.length_cons]
          omega
        refine ⟨hmin.symm ▸ rfl, ?_, ?_⟩
        · rw [hmin]
          have h1 : cnt + 1 - cnt = 1 := by omega
          rw [h1]
          rw [followerItemStep_wrk_followers]
          rfl
        · rw [followerItemStep_wrk_jobs]
          by_cases hc : (cnt + 1) % 10 = 0
          · exact Or.inr ⟨cnt + 1, by rw [if_pos hc]⟩
          · exact Or.inl (by rw [if_neg hc])
      · have hstopv : stopNow (some n) (cnt + 1) = false := by
          unfold stopNow
          dsimp only
          rw [if_neg hn0]
          exact decide_eq_false hstop
        have hred : followersLoop uid jid (some n) (f + 1) (it :: rest) cnt p =
            followersLoop uid jid (some n) f rest (cnt + 1)
              (followerItemStep uid jid it (cnt + 1) p) := by
          rw [followersLoop_cons, hstopv]
          rfl
        rw [hred]
        have hcn2 : cnt + 1 < n := by omega
        have ih2 := ih f (cnt + 1) (followerItemStep uid jid it (cnt + 1) p)
          hlen2 hcn2
        have hM : min n (cnt + 1 + rest.length) = min n (cnt + (it :: rest).length) := by
          simp only [List.length_cons]
          omega
        have hge : cnt + 1 ≤ min n (cnt + (it :: rest).length) := by
          simp only [List.length_cons]
          omega
        refine ⟨by rw [ih2.1, hM], ?_, ?_⟩
        · rw [ih2.2.1, hM]
          have h1 : min n (cnt + (it :: rest).length) - cnt =
              (min n (cnt + (it :: rest).length) - (cnt + 1)) + 1 := by
            omega
          rw [h1, List.take_succ_cons, insEdges_cons,
            followerItemStep_wrk_followers]
        · rcases ih2.2.2 with h2 | ⟨m, h2⟩ <;>
            rw [followerItemStep_wrk_jobs] at h2 <;>
            by_cases hc : (cnt + 1) % 10 = 0
          · rw [if_pos hc] at h2
            exact Or.inr ⟨cnt + 1, h2⟩
          · rw [if_neg hc] at h2
            exact Or.inl h2
          · rw [if_pos hc] at h2
            rw [h2, updateJobs_comp _ _ _ _ (fun j => setProcessed_jobId _ j)]
            exact Or.inr ⟨m, updateJobs_congr _ _ _ _ (fun j => rfl)⟩
          · rw [if_neg hc] at h2
            exact Or.inr ⟨m, h2⟩

/-- Master characterization of the `get_followers` loop with no
`max_count`, truncated to `fuel` iterations (an interruption point):
exactly `fuel` items are processed, the working follower table holds
their edges, and the durable follower table holds only the edges of the
prefix up to the last multiple-of-10 checkpoint commit. -/
theorem followersLoop_none_master (uid : String) (jid : Nat) :
    ∀ (items : List UserRow) (fuel cnt : Nat) (p : DBP),
      fuel ≤ items.length →
      (followersLoop uid jid none fuel items cnt p).1 = cnt + fuel ∧
      (followersLoop uid jid none fuel items cnt p).2.wrk.followers =
        insEdges uid (items.take fuel) p.wrk.followers ∧
      (followersLoop uid jid none fuel items cnt p).2.dur.followers =
        (if 10 * ((cnt + fuel) / 10) ≤ cnt then p.dur.followers
         else insEdges uid (items.take (10 * ((cnt + fuel) / 10) - cnt))
           p.wrk.followers) := by
  intro items
  induction items with
  | nil =>
    intro fuel cnt p hlen
    have hf : fuel = 0 := by simpa using hlen
    subst hf
    have hc : 10 * ((cnt + 0) / 10) ≤ cnt := by omega
    rw [followersLoop_zero]
    exact ⟨rfl, rfl, by rw [if_pos hc]⟩
  | cons it rest ih =>
    intro fuel cnt p hlen
    cases fuel with
    | zero =>
      have hc : 10 * ((cnt + 0) / 10) ≤ cnt := by omega
      rw [followersLoop_zero]
      exact ⟨rfl, rfl, by rw [if_pos hc]⟩
    | succ f =>
      have hlen2 : f ≤ rest.length := by simpa using hlen
      have hred : followersLoop uid jid none (f + 1) (it :: rest) cnt p =
          followersLoop uid jid none f rest (cnt + 1)
            (followerItemStep uid jid it (cnt + 1) p) := by
        rw [followersLoop_cons]
        rfl
      rw [hred]
      have ih2 := ih f (cnt + 1) (followerItemStep uid jid it (cnt + 1) p) hlen2
      have hsum : cnt + 1 + f = cnt + (f + 1) := by omega
      refine ⟨by rw [ih2.1]; omega, ?_, ?_⟩
      · rw [ih2.2.1, List.take_succ_cons, insEdges_cons,
          followerItemStep_wrk_followers]
      · rw [ih2.2.2, hsum]
        have hwrk := followerItemStep_wrk_followers uid jid it (cnt + 1) p
        have hdur := followerItemStep_dur_followers uid jid it (cnt + 1) p
        by_cases hc : (cnt + 1) % 10 = 0
        · rw [if_pos hc] at hdur
          by_cases hle : 10 * ((cnt + (f + 1)) / 10) ≤ cnt + 1
          · have heq : 10 * ((cnt + (f + 1)) / 10) = cnt + 1 := by omega
            rw [if_pos hle, if_neg (by omega), hdur, heq]
            have h1 : cnt + 1 - cnt = 1 := by omega
            rw [h1, List.take_succ_cons, List.take_zero, insEdges_cons]
            rfl
          · have hgt : ¬ 10 * ((cnt + (f + 1)) / 10) ≤ cnt := by omega
            rw [if_neg hle, if_neg hgt, hwrk]
            have h1 : 10 * ((cnt + (f + 1)) / 10) - cnt =
                (10 * ((cnt + (f + 1)) / 10) - (cnt + 1)) + 1 := by omega
            rw [h1, List.take_succ_cons, insEdges_cons]
        · rw [if_neg hc] at hdur
          by_cases hle : 10 * ((cnt + (f + 1)) / 10) ≤ cnt + 1
          · have hle2 : 10 * ((cnt + (f + 1)) / 10) ≤ cnt := by omega
            rw [if_pos hle, if_pos hle2, hdur]
          · have hgt : ¬ 10 * ((cnt + (f + 1)) / 10) ≤ cnt := by omega
            rw [if_neg hle, if_neg hgt, hwrk]
            have h1 : 10 * ((cnt + (f + 1)) / 10) - cnt =
                (10 * ((cnt + (f + 1)) / 10) - (cnt + 1)) + 1 := by omega
            rw [h1, List.take_succ_cons, insEdges_cons]

theorem updateJob_followers (db : DB) (jid : Nat) (f : JobRow → JobRow) :
    (updateJob db jid f).followers = db.followers := rfl

theorem mem_insEdges (uid : String) (l : List UserRow)
    (fl : List (String × String)) (q : String × String) :
    q ∈ insEdges uid l fl ↔
      q ∈ fl ∨ q ∈ l.map (fun it => (uid, it.userId)) := by
  rw [insEdges_eq_foldl, foldl_insPair_mem]

theorem insEdges_length_of_fresh (uid : String) (l : List UserRow)
    (fl : List (String × String))
    (hnd : (l.map (fun it => it.userId)).Nodup)
    (hfr : ∀ it ∈ l, (uid, it.userId) ∉ fl) :
    (insEdges uid l fl).length = fl.length + l.length := by
  rw [insEdges_eq_foldl, foldl_insPair_length]
  · have hall : (l.map (fun it => (uid, it.userId))).filter
        (fun p => decide (p ∉ fl)) = l.map (fun it => (uid, it.userId)) := by
      apply List.filter_eq_self.mpr
      intro q hq
      rcases List.mem_map.mp hq with ⟨it, hit, rfl⟩
      exact decide_eq_true (hfr it hit)
    rw [hall, List.length_map]
  · have hmm : l.map (fun it => (uid, it.userId)) =
        (l.map (fun it => it.userId)).map (fun s => (uid, s)) := by
      rw [List.map_map]
      rfl
    rw [hmm]
    exact hnd.map (fun a b h => ((Prod.mk.injEq uid a uid b).mp h).2)

/-- Unfolding of `get_followers` on a username whose profile fetch
succeeds, in terms of the job insert and the per-item loop. -/
theorem get_followers_some_eq (db : DB) (uname uid : String)
    (items : List UserRow) (mc : Option Nat)
    (profiles : String → Option (String × List UserRow)) (now : Int)
    (hprof : profiles uname = some (uid, items)) :
    get_followers db uname mc profiles now =
      ⟨commitDB
        ⟨(followersLoop uid db.nextJobId mc items.length items 0
            ⟨(insertJob db uname "followers" "in_progress" (some now)).2,
             (insertJob db uname "followers" "in_progress" (some now)).2⟩).2.dur,
         updateJob
           (followersLoop uid db.nextJobId mc items.length items 0
             ⟨(insertJob db uname "followers" "in_progress" (some now)).2,
              (insertJob db uname "followers" "in_progress" (some now)).2⟩).2.wrk
           db.nextJobId
           (completeJob now
             (followersLoop uid db.nextJobId mc items.length items 0
               ⟨(insertJob db uname "followers" "in_progress" (some now)).2,
                (insertJob db uname "followers" "in_progress" (some now)).2⟩).1)⟩,
       none, db.nextJobId⟩ := by
  unfold get_followers
  rw [hprof]
  rfl

/-- C5, counterexample: a fetch with `maxCount = 0` over a one-item
listing.  Python's `if max_count and count >= max_count` treats 0 as
falsy, so instead of processing min(0, 1) = 0 items the loop processes
everything: one edge is inserted and the job completes with
totalItems = processedItems = 1, not 0. -/
theorem C5_counterexample :
    (get_followers DB.empty "acct1" (some 0) oneFollowerListing
        0).p.wrk.followers.length = 1 ∧
    min 0 1 = 0 ∧
    ((get_followers DB.empty "acct1" (some 0) oneFollowerListing 0).p.wrk.jobs.map
      (fun j => (j.status, j.totalItems, j.processedItems))) =
      [("completed", some 1, 1)] := by
  decide

/-- C5 (amended): for `maxCount = N ≥ 1` over a listing of
`availableItems` items, exactly min(N, availableItems) items are
processed; the fetch's job row terminates 'completed' with
totalItems = processedItems = min(N, availableItems); every processed
item's edge is present afterwards (insertion is idempotent, so an item
that already has an edge adds no row), and when the listed accounts are
distinct and fresh exactly min(N, availableItems) edge rows are inserted.
`maxCount = 0` is falsy in the code and means "no limit" (see the
counterexample). -/
theorem C5_max_count (db : DB) (uname uid : String) (items : List UserRow)
    (n : Nat) (now : Int) (profiles : String → Option (String × List UserRow))
    (hprof : profiles uname = some (uid, items)) (hn : 1 ≤ n)
    (hfresh : ∀ j ∈ db.jobs, j.jobId < db.nextJobId) :
    (get_followers db uname (some n) profiles now).err = none ∧
    (get_followers db uname (some n) profiles now).p.dur =
      (get_followers db uname (some n) profiles now).p.wrk ∧
    (get_followers db uname (some n) profiles now).p.wrk.jobs =
      db.jobs ++ [⟨db.nextJobId, uname, "followers", "completed", some now,
                   some now, some (min n items.length), min n items.length, none⟩] ∧
    (get_followers db uname (some n) profiles now).p.wrk.followers =
      insEdges uid (items.take (min n items.length)) db.followers ∧
    (∀ q : String × String,
      q ∈ (get_followers db uname (some n) profiles now).p.wrk.followers ↔
        q ∈ db.followers ∨
          q ∈ (items.take (min n items.length)).map (fun it => (uid, it.userId))) ∧
    ((items.map (fun it => it.userId)).Nodup →
      (∀ it ∈ items, (uid, it.userId) ∉ db.followers) →
      (get_followers db uname (some n) profiles now).p.wrk.followers.length =
        db.followers.length + min n items.length) := by
  rw [get_followers_some_eq db uname uid items (some n) profiles now hprof]
  have hmast := followersLoop_some_master uid db.nextJobId n items items.length 0
    ⟨(insertJob db uname "followers" "in_progress" (some now)).2,
     (insertJob db uname "followers" "in_progress" (some now)).2⟩ le_rfl (by omega)
  simp only [Nat.zero_add, Nat.sub_zero] at hmast
  have hwf : (insertJob db uname "followers" "in_progress" (some now)).2.followers =
      db.followers := rfl
  have hwj : (insertJob db uname "followers" "in_progress" (some now)).2.jobs =
      db.jobs ++ [⟨db.nextJobId, uname, "followers", "in_progress", some now,
        none, none, 0, none⟩] := rfl
  rw [hwf, hwj] at hmast
  rw [hmast.1]
  have hjobs :
      updateJobs (db.jobs ++ [⟨db.nextJobId, uname, "followers", "in_progress",
          some now, none, none, 0, none⟩]) db.nextJobId
        (completeJob now (min n items.length)) =
      db.jobs ++ [⟨db.nextJobId, uname, "followers", "completed", some now,
        some now, some (min n items.length), min n items.length, none⟩] := by
    rw [updateJobs_append,
      updateJobs_of_ne db.jobs db.nextJobId _
        (fun j hj => Nat.ne_of_lt (hfresh j hj)),
      updateJobs_singleton _ _ _ rfl]
    rfl
  refine ⟨rfl, rfl, ?_, ?_, ?_, ?_⟩
  · show updateJobs _ db.nextJobId _ = _
    rcases hmast.2.2 with hj | ⟨m, hj⟩
    · rw [hj, hjobs]
    · rw [hj, updateJobs_setProcessed_then _ _ _
        (completeJob now (min n items.length)) (fun j k => rfl), hjobs]
  · show (updateJob _ db.nextJobId _).followers = _
    rw [updateJob_followers, hmast.2.1]
  · intro q
    show q ∈ (updateJob _ db.nextJobId _).followers ↔ _
    rw [updateJob_followers, hmast.2.1, mem_insEdges]
  · intro hnd hfr
    have hmle : min n items.length ≤ items.length := min_le_right _ _
    show (updateJob _ db.nextJobId _).followers.length = _
    rw [updateJob_followers, hmast.2.1]
    rw [insEdges_length_of_fresh]
    · rw [List.length_take]
      congr 1
      omega
    · rw [List.map_take]
      exact hnd.sublist (List.take_sublist _ _)
    · intro it hit
      exact hfr it (List.mem_of_mem_take hit)

/-- C5 witness: a five-item cap over a one-item listing on the empty
store. -/
theorem C5_max_count_witness :
    oneFollowerListing "acct1" = some ("t", [⟨"a1", "alice"⟩]) ∧
    (1 : Nat) ≤ 5 ∧ (∀ j ∈ DB.empty.jobs, j.jobId < DB.empty.nextJobId) ∧
    (get_followers DB.empty "acct1" (some 5) oneFollowerListing 0).p.wrk.jobs =
      DB.empty.jobs ++ [⟨DB.empty.nextJobId, "acct1", "followers", "completed",
        some 0, some 0, some (min 5 [UserRow.mk "a1" "alice"].length),
        min 5 [UserRow.mk "a1" "alice"].length, none⟩] :=
  ⟨by decide, by decide, by decide,
   (C5_max_count DB.empty "acct1" "t" [⟨"a1", "alice"⟩] 5 0 oneFollowerListing
     (by decide) (by decide) (by decide)).2.2.1⟩

/-- C9, counterexample: interrupting a followers fetch (job already
created and committed) after five processed items: the working store
holds all five edges, but the durable store holds none of them — the
per-item inserts are only committed at every-10th-item checkpoints, so
all five already-processed items' edges are lost, not just the in-flight
item as the claim states. -/
theorem C9_counterexample :
    (followersLoop "t" 1 none 5 fiveItems 0
        (commitDB ⟨DB.empty, (insertJob DB.empty "acct1" "followers"
          "in_progress" (some 0)).2⟩)).1 = 5 ∧
    (followersLoop "t" 1 none 5 fiveItems 0
        (commitDB ⟨DB.empty, (insertJob DB.empty "acct1" "followers"
          "in_progress" (some 0)).2⟩)).2.wrk.followers.length = 5 ∧
    (followersLoop "t" 1 none 5 fiveItems 0
        (commitDB ⟨DB.empty, (insertJob DB.empty "acct1" "followers"
          "in_progress" (some 0)).2⟩)).2.dur.followers = [] := by
  decide

/-- C9 (amended): edge inserts are committed only at every-10th-item
checkpoints (plus the commits at job creation and terminal update), so
interrupting the loop after k processed items durably retains exactly
the edges of the first 10·⌊k/10⌋ items: at most 9 fully processed items
(plus the in-flight one) are lost. -/
theorem C9_commit_granularity (db0 : DB) (uid : String) (jid : Nat)
    (items : List UserRow) (k : Nat) (hk : k ≤ items.length) :
    (followersLoop uid jid none k items 0 ⟨db0, db0⟩).1 = k ∧
    (followersLoop uid jid none k items 0 ⟨db0, db0⟩).2.wrk.followers =
      insEdges uid (items.take k) db0.followers ∧
    (followersLoop uid jid none k items 0 ⟨db0, db0⟩).2.dur.followers =
      insEdges uid (items.take (10 * (k / 10))) db0.followers ∧
    k - 10 * (k / 10) ≤ 9 := by
  have h := followersLoop_none_master uid jid items k 0 ⟨db0, db0⟩ hk
  simp only [Nat.zero_add, Nat.sub_zero] at h
  refine ⟨h.1, h.2.1, ?_, by omega⟩
  rw [h.2.2]
  by_cases hc : 10 * (k / 10) ≤ 0
  · rw [if_pos hc]
    have h0 : 10 * (k / 10) = 0 := by omega
    rw [h0]
    rfl
  · rw [if_neg hc]

/-- C9 witness: the five-item interruption, evaluated through the
amended characterization (⌊5/10⌋ = 0 checkpoints committed). -/
theorem C9_commit_granularity_witness :
    (5 : Nat) ≤ fiveItems.length ∧
    (followersLoop "t" 1 none 5 fiveItems 0 ⟨DB.empty, DB.empty⟩).2.dur.followers =
      insEdges "t" (fiveItems.take (10 * (5 / 10))) DB.empty.followers :=
  ⟨by decide,
   (C9_commit_granularity DB.empty "t" 1 fiveItems 5 (by decide)).2.2.1⟩

/-! ### Lemmas about the interest-score merge -/

theorem orElse_none_right (o : Option Rat) :
    o.orElse (fun _ => none) = o := by cases o <;> rfl

theorem orElse_assoc (a : Option Rat) (b c : Unit → Option Rat) :
    (a.orElse b).orElse c = a.orElse (fun _ => (b ()).orElse c) := by
  cases a <;> rfl

theorem find_upd_self (uid : String) (c : Nat) (conf : Rat) :
    ∀ l : List InterestRow,
      l.any (fun r => decide (r.userId = uid ∧ r.categoryId = c)) = true →
      ((l.map (fun r => if r.userId = uid ∧ r.categoryId = c then
          { r with confidence := conf } else r)).find?
        (fun r => decide (r.userId = uid ∧ r.categoryId = c))).map
          (fun r => r.confidence) = some conf := by
  intro l
  induction l with
  | nil => intro h; simp at h
  | cons r rest ih =>
    intro h
    by_cases hr : r.userId = uid ∧ r.categoryId = c
    · rw [List.map_cons, if_pos hr]
      rw [List.find?_cons_of_pos _ (by simpa using hr)]
      rfl
    · rw [List.map_cons, if_neg hr]
      rw [List.find?_cons_of_neg _ (by simpa using hr)]
      apply ih
      rcases List.any_eq_true.mp h with ⟨r2, hr2, hp2⟩
      rcases List.mem_cons.mp hr2 with rfl | hr2
      · exact absurd (of_decide_eq_true hp2) hr
      · exact List.any_eq_true.mpr ⟨r2, hr2, hp2⟩

theorem find_upd_other (uid uid2 : String) (c cid : Nat) (conf : Rat)
    (hne : ¬(uid2 = uid ∧ cid = c)) :
    ∀ l : List InterestRow,
      (l.map (fun r => if r.userId = uid ∧ r.categoryId = c then
          { r with confidence := conf } else r)).find?
        (fun r => decide (r.userId = uid2 ∧ r.categoryId = cid)) =
      l.find? (fun r => decide (r.userId = uid2 ∧ r.categoryId = cid)) := by
  intro l
  induction l with
  | nil => rfl
  | cons r rest ih =>
    rw [List.map_cons]
    by_cases hq : r.userId = uid2 ∧ r.categoryId = cid
    · have hru : ¬(r.userId = uid ∧ r.categoryId = c) := by
        intro hcon
        exact hne ⟨hq.1.symm.trans hcon.1, hq.2.symm.trans hcon.2⟩
      rw [if_neg hru]
      rw [List.find?_cons_of_pos _ (by simpa using hq),
        List.find?_cons_of_pos _ (by simpa using hq)]
    · by_cases hr : r.userId = uid ∧ r.categoryId = c
      · rw [if_pos hr]
        rw [List.find?_cons_of_neg _ (by simpa using hq),
          List.find?_cons_of_neg _ (by simpa using hq)]
        exact ih
      · rw [if_neg hr]
        rw [List.find?_cons_of_neg _ (by simpa using hq),
          List.find?_cons_of_neg _ (by simpa using hq)]
        exact ih

theorem find_append_self (uid : String) (c : Nat) (conf : Rat) :
    ∀ l : List InterestRow,
      l.any (fun r => decide (r.userId = uid ∧ r.categoryId = c)) = false →
      (l ++ [(⟨uid, c, conf⟩ : InterestRow)]).find?
          (fun r => decide (r.userId = uid ∧ r.categoryId = c)) =
        some (⟨uid, c, conf⟩ : InterestRow) := by
  intro l
  induction l with
  | nil =>
    intro _
    rw [List.nil_append]
    exact List.find?_cons_of_pos _ (by simp)
  | cons r rest ih =>
    intro h
    rw [List.any_cons] at h
    rcases Bool.or_eq_false_iff.mp h with ⟨h1, h2⟩
    rw [List.cons_append, List.find?_cons_of_neg _ (by simp only [h1]; exact
      Bool.false_ne_true)]
    exact ih h2

theorem find_append_other (uid uid2 : String) (c cid : Nat) (conf : Rat)
    (hne : ¬(uid2 = uid ∧ cid = c)) :
    ∀ l : List InterestRow,
      (l ++ [(⟨uid, c, conf⟩ : InterestRow)]).find?
          (fun r => decide (r.userId = uid2 ∧ r.categoryId = cid)) =
        l.find? (fun r => decide (r.userId = uid2 ∧ r.categoryId = cid)) := by
  intro l
  induction l with
  | nil =>
    rw [List.nil_append]
    rw [List.find?_cons_of_neg _ (by
      simp only [decide_eq_true_eq]
      intro hcon
      exact hne ⟨hcon.1.symm, hcon.2.symm⟩)]
  | cons r rest ih =>
    rw [List.cons_append]
    by_cases hq : r.userId = uid2 ∧ r.categoryId = cid
    · rw [List.find?_cons_of_pos _ (by simpa using hq),
        List.find?_cons_of_pos _ (by simpa using hq)]
    · rw [List.find?_cons_of_neg _ (by simpa using hq),
        List.find?_cons_of_neg _ (by simpa using hq)]
      exact ih

theorem lookupInterest_upsert (db : DB) (uid : String) (c cid : Nat) (conf : Rat) :
    lookupInterest (upsertInterest db uid c conf) uid cid =
      if c = cid then some conf else lookupInterest db uid cid := by
  unfold lookupInterest upsertInterest
  by_cases hany : db.interests.any
      (fun r => decide (r.userId = uid ∧ r.categoryId = c)) = true
  · rw [if_pos hany]
    by_cases hc : c = cid
    · subst hc
      rw [if_pos rfl]
      exact find_upd_self uid c conf db.interests hany
    · rw [if_neg hc]
      rw [find_upd_other uid uid c cid conf (fun h2 => hc (h2.2.symm))
        db.interests]
  · rw [if_neg hany]
    by_cases hc : c = cid
    · subst hc
      rw [if_pos rfl]
      rw [find_append_self uid c conf db.interests
        (Bool.eq_false_iff.mpr hany)]
      rfl
    · rw [if_neg hc]
      rw [find_append_other uid uid c cid conf (fun h2 => hc (h2.2.symm))
        db.interests]

theorem store_lookup (uid : String) (mapping : List (String × Nat)) :
    ∀ (results : List ClassResult) (db : DB) (cid : Nat),
      lookupInterest (store_interest_results db uid results mapping) uid cid =
        (lastValidConf mapping results cid).orElse
          (fun _ => lookupInterest db uid cid) := by
  intro results
  induction results with
  | nil => intro db cid; rfl
  | cons r rest ih =>
    intro db cid
    have hlvc : lastValidConf mapping (r :: rest) cid =
        (lastValidConf mapping rest cid).orElse (fun _ =>
          match resolveResult mapping r with
          | some q => if q.1 = cid then some q.2 else none
          | none => none) := rfl
    rcases hres : resolveResult mapping r with _ | q
    · have hstep : store_interest_results db uid (r :: rest) mapping =
          store_interest_results db uid rest mapping := by
        unfold store_interest_results
        rw [List.foldl_cons]
        simp only [hres]
      rw [hstep, hlvc, ih db cid, orElse_assoc]
      simp only [hres]
      rfl
    · have hstep : store_interest_results db uid (r :: rest) mapping =
          store_interest_results (upsertInterest db uid q.1 q.2) uid rest
            mapping := by
        unfold store_interest_results
        rw [List.foldl_cons]
        simp only [hres]
      rw [hstep, hlvc, ih (upsertInterest db uid q.1 q.2) cid, orElse_assoc]
      simp only [hres]
      congr 1
      funext _
      rw [lookupInterest_upsert]
      by_cases hc : q.1 = cid
      · rw [if_pos hc, if_pos hc]
        rfl
      · rw [if_neg hc, if_neg hc]
        rfl

theorem store_filter (uid : String) (mapping : List (String × Nat)) :
    ∀ (results : List ClassResult) (db : DB),
      store_interest_results db uid results mapping =
        store_interest_results db uid
          (results.filter (fun r => (resolveResult mapping r).isSome)) mapping := by
  intro results
  induction results with
  | nil => intro db; rfl
  | cons r rest ih =>
    intro db
    rcases hres : resolveResult mapping r with _ | q
    · have h1 : store_interest_results db uid (r :: rest) mapping =
          store_interest_results db uid rest mapping := by
        unfold store_interest_results
        rw [List.foldl_cons, hres]
      have h2 : (r :: rest).filter (fun r => (resolveResult mapping r).isSome) =
          rest.filter (fun r => (resolveResult mapping r).isSome) := by
        rw [List.filter_cons, hres]
        rfl
      rw [h1, h2, ih db]
    · have h1 : store_interest_results db uid (r :: rest) mapping =
          store_interest_results (upsertInterest db uid q.1 q.2) uid rest mapping := by
        unfold store_interest_results
        rw [List.foldl_cons, hres]
      have h2 : (r :: rest).filter (fun r => (resolveResult mapping r).isSome) =
          r :: rest.filter (fun r => (resolveResult mapping r).isSome) := by
        rw [List.filter_cons, hres]
        rfl
      have h3 : store_interest_results db uid
          (r :: rest.filter (fun r => (resolveResult mapping r).isSome)) mapping =
          store_interest_results (upsertInterest db uid q.1 q.2) uid
            (rest.filter (fun r => (resolveResult mapping r).isSome)) mapping := by
        unfold store_interest_results
        rw [List.foldl_cons, hres]
      rw [h1, h2, h3, ih (upsertInterest db uid q.1 q.2)]

theorem lastValidConf_invalid (mapping : List (String × Nat)) :
    ∀ (results : List ClassResult) (cid : Nat),
      lastValidConf mapping
        (results.filter (fun r => !(resolveResult mapping r).isSome)) cid =
        none := by
  intro results
  induction results with
  | nil => intro cid; rfl
  | cons r rest ih =>
    intro cid
    rcases hres : resolveResult mapping r with _ | q
    · have h2 : (r :: rest).filter (fun r => !(resolveResult mapping r).isSome) =
          r :: rest.filter (fun r => !(resolveResult mapping r).isSome) := by
        rw [List.filter_cons, hres]
        rfl
      rw [h2]
      have h3 : lastValidConf mapping
          (r :: rest.filter (fun r => !(resolveResult mapping r).isSome)) cid =
          (lastValidConf mapping
            (rest.filter (fun r => !(resolveResult mapping r).isSome)) cid).orElse
            (fun _ => match resolveResult mapping r with
              | some q => if q.1 = cid then some q.2 else none
              | none => none) := rfl
      rw [h3, ih cid, hres]
      rfl
    · have h2 : (r :: rest).filter (fun r => !(resolveResult mapping r).isSome) =
          rest.filter (fun r => !(resolveResult mapping r).isSome) := by
        rw [List.filter_cons, hres]
        rfl
      rw [h2, ih cid]

/-- C8: a classification result whose category is not an exact
(case-sensitive, via String equality) member of the taxonomy mapping is
skipped: storing a batch equals storing only its resolvable results, so a
discarded result is never persisted and never aborts the batch; the valid
results are merged into `interests` keyed by (user_id, category_id) with
last-write-wins — the stored confidence for a key is the last valid
result's confidence for that category, falling back to the prior row —
and the discarded results alone would store nothing. -/
theorem C8_unknown_category (db : DB) (uid : String) (results : List ClassResult)
    (mapping : List (String × Nat)) :
    store_interest_results db uid results mapping =
      store_interest_results db uid
        (results.filter (fun r => (resolveResult mapping r).isSome)) mapping ∧
    (∀ cid : Nat,
      lookupInterest (store_interest_results db uid results mapping) uid cid =
        (lastValidConf mapping results cid).orElse
          (fun _ => lookupInterest db uid cid)) ∧
    (∀ cid : Nat,
      lastValidConf mapping
        (results.filter (fun r => !(resolveResult mapping r).isSome)) cid =
        none) :=
  ⟨store_filter uid mapping results db,
   fun cid => store_lookup uid mapping results db cid,
   fun cid => lastValidConf_invalid mapping results cid⟩

/-! ### Lemmas about the proxy pool -/

theorem get_proxy_inv (m : ProxyManager) (h : ProxyInv m) :
    ∃ pr m2, get_proxy m = some (some pr, m2) ∧ pr ∈ m.proxies ∧ ProxyInv m2 := by
  rcases h with ⟨hperm, hidx⟩
  have hlen : m.proxies.length = 3 := hperm.length_eq
  have hne : m.proxies.isEmpty ≠ true := by
    cases hp : m.proxies with
    | nil => rw [hp] at hlen; simp at hlen
    | cons a l => simp [hp]
  have hlt : m.currentIndex < m.proxies.length := by omega
  unfold get_proxy
  rw [if_neg hne, dif_pos hlt]
  refine ⟨m.proxies.get ⟨m.currentIndex, hlt⟩,
    { m with currentIndex := (m.currentIndex + 1) % m.proxies.length },
    rfl, List.get_mem m.proxies m.currentIndex hlt, hperm, ?_⟩
  show (m.currentIndex + 1) % m.proxies.length < 3
  have := Nat.mod_lt (m.currentIndex + 1) (show 0 < m.proxies.length by omega)
  omega

theorem mark_inv (m : ProxyManager) (pr : Proxy) (reload : List Proxy)
    (h : ProxyInv m) (hr : reload.Perm baseProxies) :
    ProxyInv (mark_proxy_failed m pr reload) := by
  rcases h with ⟨hperm, hidx⟩
  have hlen : m.proxies.length = 3 := hperm.length_eq
  unfold mark_proxy_failed
  by_cases hmem : pr ∈ m.proxies
  · rw [if_pos hmem]
    have herase : (m.proxies.erase pr).length = 2 := by
      rw [List.length_erase_of_mem hmem, hlen]
    rw [if_pos (by rw [herase]; omega)]
    exact ⟨hr, hidx⟩
  · rw [if_neg hmem]
    exact ⟨hperm, hidx⟩

theorem runProxy_inv :
    ∀ (evs : List PEvent) (m : ProxyManager), ProxyInv m →
      (∀ pr l, PEvent.fail pr l ∈ evs → l.Perm baseProxies) →
      ∃ m2, runProxy evs m = some m2 ∧ ProxyInv m2 := by
  intro evs
  induction evs with
  | nil => intro m hm _; exact ⟨m, rfl, hm⟩
  | cons e rest ih =>
    intro m hm hv
    cases e with
    | get =>
      rcases get_proxy_inv m hm with ⟨pr, m2, hg, _, hm2⟩
      rcases ih m2 hm2 (fun pr2 l2 h2 => hv pr2 l2 (by simp [h2])) with
        ⟨m3, hrun, hm3⟩
      refine ⟨m3, ?_, hm3⟩
      show (match get_proxy m with
        | none => none
        | some (_, m1) => runProxy rest m1) = some m3
      rw [hg]
      exact hrun
    | fail pr l =>
      have hl : l.Perm baseProxies := hv pr l (by simp)
      rcases ih (mark_proxy_failed m pr l) (mark_inv m pr l hm hl)
        (fun pr2 l2 h2 => hv pr2 l2 (by simp [h2])) with ⟨m3, hrun, hm3⟩
      exact ⟨m3, hrun, hm3⟩

/-- C10: for every interleaving of `get_proxy` and `mark_proxy_failed`
calls starting from a freshly loaded pool (any shuffle of the base list,
every reload likewise a shuffle), the run never raises: the eviction
branch always drops the pool below the floor of 3 and immediately
reloads, so the pool is always a 3-element permutation of the base list
and the rotation index always lies within its bounds — in particular the
next `get_proxy` after any `mark_proxy_failed` succeeds and returns a
proxy currently in the pool (`None` is returned only on an empty pool,
which this loader never produces). -/
theorem C10_proxy_rotation_safe (init0 : List Proxy)
    (hinit : init0.Perm baseProxies) (evs : List PEvent)
    (hv : ∀ pr l, PEvent.fail pr l ∈ evs → l.Perm baseProxies) :
    ∃ m2, runProxy evs ⟨init0, 0⟩ = some m2 ∧
      ∃ pr m3, get_proxy m2 = some (some pr, m3) ∧ pr ∈ m2.proxies := by
  have h0 : ProxyInv ⟨init0, 0⟩ := ⟨hinit, by show (0 : Nat) < 3; omega⟩
  rcases runProxy_inv evs _ h0 hv with ⟨m2, hrun, hm2⟩
  rcases get_proxy_inv m2 hm2 with ⟨pr, m3, hg, hmem, _⟩
  exact ⟨m2, hrun, pr, m3, hg, hmem⟩

/-- C10 witness: two rotations, one eviction with reload, one more get. -/
theorem C10_proxy_rotation_safe_witness :
    baseProxies.Perm baseProxies ∧
    (∃ m2, runProxy [PEvent.get,
        PEvent.fail ⟨"http://proxy1:port", "https://proxy1:port"⟩ baseProxies,
        PEvent.get] ⟨baseProxies, 0⟩ = some m2 ∧
      ∃ pr m3, get_proxy m2 = some (some pr, m3) ∧ pr ∈ m2.proxies) := by
  refine ⟨List.Perm.refl _,
    C10_proxy_rotation_safe baseProxies (List.Perm.refl _) _ ?_⟩
  intro pr l hmem
  simp only [List.mem_cons, List.not_mem_nil, or_false] at hmem
  rcases hmem with h | h | h
  · exact PEvent.noConfusion h
  · injection h with h1 h2
    subst h2
    exact List.Perm.refl _
  · exact PEvent.noConfusion h

end InstaPipe
